import Mathlib

/-!
Verification of the AI PR review assistant (`ai_pr_review.py`).

The embedding below follows `src/build/lib/ai_pr_review.py`, the fuller of the
repository's two near-identical revisions of the module (the top-level
`src/ai_pr_review.py` differs only by lacking the dry-run branches, the
branch-name normalisation helper and the repo-id inference helper).

Python strings are modelled as `List Char`; `os.getenv` results, subprocess
results and network-call outcomes are passed in explicitly.  A raised Python
exception is modelled with `Except.error`; a Python `None` with `Option.none`.
-/

/-- Python whitespace test backing `str.strip()` (ASCII whitespace plus the
common Unicode blanks; only membership of specific characters matters in the
proofs). -/
def isPySpace (c : Char) : Bool :=
  c = ' ' || c = '\t' || c = '\n' || c = '\r' || c = '\x0b' || c = '\x0c' ||
  c = '\x1c' || c = '\x1d' || c = '\x1e' || c = '\x1f' || c = '\x85' || c = '\u00a0'

/-- Python `str.lstrip()` (no argument). -/
def lstripWS (s : List Char) : List Char := s.dropWhile isPySpace

/-- Python `str.rstrip()` (no argument). -/
def rstripWS (s : List Char) : List Char := List.rdropWhile isPySpace s

/-- Python `str.strip()` (no argument). -/
def stripWS (s : List Char) : List Char := rstripWS (lstripWS s)

/-- The line boundaries recognised by Python `str.splitlines()`. -/
def isLineBreak (c : Char) : Bool :=
  c = '\n' || c = '\r' || c = '\x0b' || c = '\x0c' || c = '\x1c' || c = '\x1d' ||
  c = '\x1e' || c = '\x85' || c = '\u2028' || c = '\u2029'

/-- First pass of `splitlines`: the two-character boundary `"\r\n"` collapses
to a single boundary character. -/
def normCRLF : List Char → List Char
  | [] => []
  | '\r' :: '\n' :: rest => '\n' :: normCRLF rest
  | c :: rest => c :: normCRLF rest

/-- Worker for `splitlines` over single-character boundaries: `acc` holds the
current line reversed; a boundary at the very end opens no new line. -/
def slAux (acc : List Char) : List Char → List (List Char)
  | [] => [acc.reverse]
  | c :: rest =>
    if isLineBreak c then
      match rest with
      | [] => [acc.reverse]
      | _ => acc.reverse :: slAux [] rest
    else slAux (c :: acc) rest

/-- Python `str.splitlines()` (`keepends=False`): a final terminator produces
no trailing empty line, and the empty string yields no lines. -/
def splitlines (s : List Char) : List (List Char) :=
  match normCRLF s with
  | [] => []
  | s2 => slAux [] s2

/-- Python `"\n".join(xs)`. -/
def joinNL (xs : List (List Char)) : List Char := List.intercalate ['\n'] xs

/-- `MAX_DIFF_CHARS` from the source. -/
def MAX_DIFF_CHARS : Nat := 120000

/-- `MAX_FILES` from the source. -/
def MAX_FILES : Nat := 100

/-- The string appended to an over-long diff by `collect_diff`. -/
def diffTruncMarker : List Char := "\n\n[diff truncated]".data

/-- The line appended to an over-long file list by `collect_diff`. -/
def filesTruncMarker : List Char := "\n[files list truncated]".data

/-- `collect_diff(source_branch, target_branch)`.  The two `git diff`
subprocess results are passed in as `git_names` / `git_diff`; `none` models
the command raising, in which case the source substitutes `""`. -/
def collect_diff (source_branch target_branch : List Char)
    (git_names git_diff : Option (List Char)) :
    List Char × List Char × List Char :=
  let range_spec := target_branch ++ "...".data ++ source_branch
  let names := git_names.getD []
  let diff0 := git_diff.getD []
  let diff :=
    if diff0.length > MAX_DIFF_CHARS then diff0.take MAX_DIFF_CHARS ++ diffTruncMarker
    else diff0
  let lines := splitlines names
  let files0 := joinNL (lines.take MAX_FILES)
  let files := if lines.length > MAX_FILES then files0 ++ filesTruncMarker else files0
  (files, diff, range_spec)

/-- Concrete file-list input used by the C10 witness. -/
def c10names : List Char := "a\nb".data

/-- Concrete at-the-bound diff used by the C10 witness. -/
def c10diff : List Char := List.replicate 120000 'x'

/-- Number of positions of `s` at which `pat` starts (for nonempty `pat`,
the number of occurrences of `pat` in `s`, overlaps counted). -/
def countOccur (pat : List Char) : List Char → Nat
  | [] => 0
  | c :: rest => (if List.isPrefixOf pat (c :: rest) then 1 else 0) + countOccur pat rest

/-- The tail of `diffTruncMarker`. -/
def diffTruncMarkerTl : List Char := "\n[diff truncated]".data

/-- Over-long raw diff that already contains the truncation marker, used to
refute the uniqueness part of C4. -/
def c4raw : List Char := diffTruncMarker ++ List.replicate 120000 'a'

/-- Marker-free over-long raw diff used by the C4 witness. -/
def c4wraw : List Char := List.replicate 120001 'a'

/-- A string ends whitespace-free (the condition under which Python
`str.rstrip()` is the identity). -/
abbrev wsFreeEnd (s : List Char) : Prop := rstripWS s = s

/-- Splits at the first occurrence of `sep`, if any. -/
def breakAtChar (sep : Char) : List Char → Option (List Char × List Char)
  | [] => none
  | c :: rest =>
    if c = sep then some ([], rest)
    else
      match breakAtChar sep rest with
      | none => none
      | some (p, q) => some (c :: p, q)

/-- Python `s.split(sep, maxsplit)` for a single-character separator. -/
def splitChar (sep : Char) : Nat → List Char → List (List Char)
  | 0, s => [s]
  | n + 1, s =>
    match breakAtChar sep s with
    | none => [s]
    | some (p, q) => p :: splitChar sep n q

/-- The fully-qualified local branch namespace tested by `to_ref` and
`normalize_branch_for_ref`. -/
def refsHeads : List Char := "refs/heads/".data

/-- The fully-qualified remote-tracking namespace. -/
def refsRemotes : List Char := "refs/remotes/".data

/-- The short remote-tracking namespace. -/
def remotesSeg : List Char := "remotes/".data

/-- The literal `origin` remote-alias segment. -/
def originSeg : List Char := "origin/".data

/-- `normalize_branch_for_ref(branch)`.  The source's early-return chain is
rendered as one conditional chain: in the source, a branch that enters the
`refs/remotes/` (resp. `remotes/`) block but fails its inner length guard
falls through to the later `startswith` checks, none of which can match a
string starting with `refs/remotes/` (resp. `remotes/`), so it returns
`value`; the chain below has exactly that behaviour. -/
def normalize_branch_for_ref (branch : List Char) : List Char :=
  let value := stripWS branch
  if List.isPrefixOf refsHeads value then value
  else if List.isPrefixOf refsRemotes value ∧ (splitChar '/' 3 value).length = 4 then
    (splitChar '/' 3 value).getD 3 []
  else if List.isPrefixOf remotesSeg value ∧ (splitChar '/' 2 value).length = 3 then
    (splitChar '/' 2 value).getD 2 []
  else if List.isPrefixOf originSeg value then (splitChar '/' 1 value).getD 1 []
  else value

/-- `to_ref(branch)` from the source. -/
def to_ref (branch : List Char) : List Char :=
  let normalized := normalize_branch_for_ref branch
  if List.isPrefixOf refsHeads normalized then normalized
  else refsHeads ++ normalized

/-- Remote-tracking branch name with a non-`origin` alias, refuting the
bare-alias part of C8. -/
def c8bad : List Char := "upstream/feature".data

/-- Hexadecimal digit value, as accepted by percent-escapes. -/
def hexVal (c : Char) : Option Nat :=
  if '0' ≤ c ∧ c ≤ '9' then some (c.toNat - '0'.toNat)
  else if 'a' ≤ c ∧ c ≤ 'f' then some (c.toNat - 'a'.toNat + 10)
  else if 'A' ≤ c ∧ c ≤ 'F' then some (c.toNat - 'A'.toNat + 10)
  else none

/-- `urllib.parse.unquote`, modelled for single-byte escapes: `%XX` with two
hex digits decodes to the character with that code point; a `%` not followed
by two hex digits is kept.  (Multi-byte UTF-8 escape sequences do not occur
in the inputs considered here.) -/
def unquote : List Char → List Char
  | [] => []
  | '%' :: a :: b :: rest =>
    match hexVal a, hexVal b with
    | some x, some y => Char.ofNat (16 * x + y) :: unquote rest
    | _, _ => '%' :: unquote (a :: b :: rest)
  | c :: rest => c :: unquote rest

/-- The part of `s` after the last occurrence of `sep`, or `none` when `sep`
does not occur (`sep` nonempty). -/
def afterLastSubAux (sep : List Char) : List Char → Option (List Char)
  | [] => none
  | c :: rest =>
    match afterLastSubAux sep rest with
    | some r => some r
    | none =>
      if List.isPrefixOf sep (c :: rest) then some ((c :: rest).drop sep.length)
      else none

/-- Python `s.rsplit(sep, 1)[-1]` for nonempty `sep`. -/
def afterLastSub (sep s : List Char) : List Char := (afterLastSubAux sep s).getD s

/-- Python `pat in s`. -/
def containsSub (pat : List Char) : List Char → Bool
  | [] => List.isPrefixOf pat []
  | c :: rest => List.isPrefixOf pat (c :: rest) || containsSub pat rest

/-- Python `s.strip("/")`. -/
def stripSlashes (s : List Char) : List Char :=
  List.rdropWhile (fun c => c == '/') (s.dropWhile (fun c => c == '/'))

/-- Python `s.rstrip("/")`. -/
def rstripSlashes (s : List Char) : List Char :=
  List.rdropWhile (fun c => c == '/') s

/-- Python `s.removesuffix(suf)`. -/
def removesuffixL (suf s : List Char) : List Char :=
  if List.isSuffixOf suf s then s.take (s.length - suf.length) else s

/-- One segment taken from a reversed string: when the input starts with a
nonempty run of non-`'/'` characters followed by `'/'`, returns the segment
(in original order) and the remainder after that slash. -/
def takeSeg (r : List Char) : Option (List Char × List Char) :=
  let seg := r.takeWhile (fun c => c != '/')
  match r.drop seg.length with
  | '/' :: r2 => if seg = [] then none else some (seg.reverse, r2)
  | _ => none

/-- Group 1 of the source's SSH v3 pattern
`ssh\.dev\.azure\.com[:/]+v3/[^/]+/[^/]+/([^/]+)$`: the string must end with
the host token, a nonempty run of `':'` or `'/'`, `v3/` and three nonempty
slash-free segments; the group is the final segment.  (The `$` anchor pins
the whole decomposition, so the leftmost-match rule of `re.search` adds
nothing: a match exists exactly when this end-decomposition succeeds, and the
group it yields is the same.) -/
def sshV3Group (s : List Char) : Option (List Char) :=
  match takeSeg s.reverse with
  | none => none
  | some (g, r1) =>
    match takeSeg r1 with
    | none => none
    | some (_, r2) =>
      match takeSeg r2 with
      | none => none
      | some (_, r3) =>
        match r3 with
        | '3' :: 'v' :: r4 =>
          let seps := r4.takeWhile (fun c => c == ':' || c == '/')
          if seps = [] then none
          else if List.isPrefixOf ( "ssh.dev.azure.com".data.reverse) (r4.drop seps.length)
          then some g
          else none
        | _ => none

/-- Python `s.replace("\\", "/")`. -/
def backToFwd (s : List Char) : List Char :=
  s.map (fun c => if c = '\\' then '/' else c)

/-- `extract_repo_id_from_remote(remote_url)` from the source. -/
def extract_repo_id_from_remote (remote_url : List Char) : List Char :=
  if remote_url = [] then []
  else
    let normalized := stripWS remote_url
    if containsSub ( "/_git/".data) normalized then
      unquote (stripSlashes (afterLastSub ( "/_git/".data) normalized))
    else
      match sshV3Group normalized with
      | some g => unquote (removesuffixL ( ".git".data) g)
      | none =>
        let path := rstripSlashes (backToFwd normalized)
        let repo := afterLastSub ['/'] path
        let repo2 :=
          if containsSub [':'] repo && containsSub ['@'] path && !(containsSub ['/'] repo)
          then afterLastSub [':'] repo
          else repo
        unquote (removesuffixL ( ".git".data) repo2)

/-- Concrete HTTPS clone URL with the `/_git/` marker (C9). -/
def c9urlGit : List Char := "https://dev.azure.com/org/project/_git/myrepo".data

/-- Concrete SSH v3 clone URL (C9). -/
def c9urlSsh : List Char := "git@ssh.dev.azure.com:v3/org/project/myrepo".data

/-- Concrete generic path clone URL (C9). -/
def c9urlPath : List Char := "https://example.com/team/myrepo.git".data

/-- Python `str.lower()` (ASCII model). -/
def toLowerL (s : List Char) : List Char := s.map Char.toLower

/-- The model-family token recognised by `ai_chat` for the Claude family. -/
def claudeTok : List Char := "claude".data

/-- The provider-selection logic at the top of `ai_chat`: the lower-cased
`AI_PROVIDER` value wins when nonempty; otherwise the model name is
inspected, with every non-Claude outcome resolving to `openai`. -/
def selectProvider (ai_provider model : List Char) : List Char :=
  let provider := toLowerL ai_provider
  if provider = [] then
    if List.isPrefixOf claudeTok model || containsSub claudeTok (toLowerL model) then
      "claude".data
    else if List.isPrefixOf ( "gpt".data) model || List.isPrefixOf ( "o1".data) model ||
        List.isPrefixOf ( "nvidia/".data) model then
      "openai".data
    else "openai".data
  else provider

/-- The adapter `ai_chat` dispatches to. -/
inductive Adapter where
  | claude
  | openai
  | unknown
deriving DecidableEq, Repr

/-- The dispatch at the bottom of `ai_chat`. -/
def routeProvider (provider : List Char) : Adapter :=
  if provider = "claude".data ∨ provider = "anthropic".data then Adapter.claude
  else if provider = "openai".data ∨ provider = "chatgpt".data ∨
      provider = "nvidia".data then Adapter.openai
  else Adapter.unknown

/-- Provider routing of `ai_chat`. -/
def ai_chat_route (ai_provider model : List Char) : Adapter :=
  routeProvider (selectProvider ai_provider model)

/-- Model names used by the C6 witness. -/
def c6mClaude : List Char := "claude-opus".data

/-- Unrecognised model name used by the C6 witness. -/
def c6mOther : List Char := "mistral-7b".data

/-- Explicit provider override used by the C6 witness. -/
def c6pOverride : List Char := "ChatGPT".data

/-- The environment read by `claude_chat`: whether `import anthropic`
succeeded, and the two credential variables. -/
structure ClaudeEnv where
  anthropic_installed : Bool
  anthropic_api_key : List Char
  claude_api_key : List Char
deriving DecidableEq, Repr

/-- The environment read by `openai_chat`: the two credential variables. -/
structure OpenAiEnv where
  openai_api_key : List Char
  nvidia_api_key : List Char
deriving DecidableEq, Repr

/-- `claude_chat(model, system_prompt, user_content)`: the outcome of the
`client.messages.create` network call is passed in as `transport`
(`Except.error` models a raised exception, `Except.ok` the returned text).
The source wraps that call in no `try`, so an exception propagates. -/
def claude_chat (env : ClaudeEnv) (transport : Except (List Char) (List Char)) :
    Except (List Char) (Option (List Char)) :=
  if env.anthropic_installed = false then Except.ok none
  else
    let api_key :=
      if ¬ env.anthropic_api_key = [] then env.anthropic_api_key else env.claude_api_key
    if api_key = [] then Except.ok none
    else
      match transport with
      | Except.error e => Except.error e
      | Except.ok t => Except.ok (some t)

/-- `openai_chat(model, system_prompt, user_content)`: the HTTP call plus
response extraction live inside `try/except`, so any transport failure is
logged and becomes `None`; a successful response's content is stripped. -/
def openai_chat (env : OpenAiEnv) (transport : Except (List Char) (List Char)) :
    Except (List Char) (Option (List Char)) :=
  let api_key :=
    if ¬ env.openai_api_key = [] then env.openai_api_key else env.nvidia_api_key
  if api_key = [] then Except.ok none
  else
    match transport with
    | Except.error _ => Except.ok none
    | Except.ok t => Except.ok (some (stripWS t))

/-- Claude environment (package installed, key set) used for C3. -/
def c3env : ClaudeEnv := ⟨true, "k".data, []⟩

/-- Payload of `create_pr` and of the create dry-run preview. -/
structure CreatePayload where
  sourceRefName : List Char
  targetRefName : List Char
  title : List Char
  description : List Char
deriving DecidableEq, Repr

/-- Payload of `post_pr_comment` and of the review-comment dry-run preview:
the single comment's fields plus the thread status. -/
structure CommentPayload where
  parentCommentId : Nat
  content : List Char
  commentType : Nat
  status : Nat
deriving DecidableEq, Repr

/-- Payload of `update_pr_description` and of the description-update
preview. -/
structure PatchPayload where
  description : List Char
deriving DecidableEq, Repr

/-- URL built inside `create_pr`. -/
def create_pr_url (org_url project repo_id : List Char) : List Char :=
  org_url ++ "/".data ++ project ++ "/_apis/git/repositories/".data ++ repo_id ++
    "/pullrequests?api-version=7.1-preview.1".data

/-- Payload built inside `create_pr`. -/
def create_pr_payload (source_branch target_branch title description : List Char) :
    CreatePayload :=
  ⟨to_ref source_branch, to_ref target_branch, title, description⟩

/-- URL built inside `post_pr_comment`. -/
def post_pr_comment_url (org_url project repo_id pr_id : List Char) : List Char :=
  org_url ++ project ++ "/_apis/git/repositories/".data ++ repo_id ++
    "/pullRequests/".data ++ pr_id ++ "/threads?api-version=7.1-preview.1".data

/-- Payload built inside `post_pr_comment`. -/
def post_pr_comment_payload (content : List Char) : CommentPayload :=
  ⟨0, content, 1, 1⟩

/-- URL built inside `update_pr_description`. -/
def update_pr_description_url (org_url project repo_id pr_id : List Char) : List Char :=
  org_url ++ project ++ "/_apis/git/repositories/".data ++ repo_id ++
    "/pullRequests/".data ++ pr_id ++ "?api-version=7.1-preview.1".data

/-- Payload built inside `update_pr_description`. -/
def update_pr_description_payload (description : List Char) : PatchPayload :=
  ⟨description⟩

/-- URL built inside `get_pr`. -/
def get_pr_url (org_url project repo_id pr_id : List Char) : List Char :=
  org_url ++ project ++ "/_apis/git/repositories/".data ++ repo_id ++
    "/pullRequests/".data ++ pr_id ++ "?api-version=7.1-preview.1".data

/-- URL printed by the dry-run branch of `handle_create`. -/
def dry_create_url (org_url project repo_id : List Char) : List Char :=
  org_url ++ "/".data ++ project ++ "/_apis/git/repositories/".data ++ repo_id ++
    "/pullrequests?api-version=7.1-preview.1".data

/-- Payload printed by the dry-run branch of `handle_create`. -/
def dry_create_payload (source_branch target_branch title description : List Char) :
    CreatePayload :=
  ⟨to_ref source_branch, to_ref target_branch, title, description⟩

/-- Comment URL printed by the dry-run branch of `handle_review`. -/
def dry_comment_url (org_url project repo_id pr_id : List Char) : List Char :=
  org_url ++ project ++ "/_apis/git/repositories/".data ++ repo_id ++
    "/pullRequests/".data ++ pr_id ++ "/threads?api-version=7.1-preview.1".data

/-- The comment header used by `handle_review`. -/
def commentHeader : List Char := "## AI Code Review\n\n".data

/-- Comment payload printed by the dry-run branch of `handle_review`. -/
def dry_comment_payload (result : List Char) : CommentPayload :=
  ⟨0, commentHeader ++ result, 1, 1⟩

/-- Description-update URL printed by the dry-run branch of `handle_review`. -/
def dry_update_url (org_url project repo_id pr_id : List Char) : List Char :=
  org_url ++ project ++ "/_apis/git/repositories/".data ++ repo_id ++
    "/pullRequests/".data ++ pr_id ++ "?api-version=7.1-preview.1".data

/-- Description-update payload printed by the dry-run branch of
`handle_review`: a fixed placeholder text (the `\\n` in the Python source
are escaped backslashes, i.e. literal backslash-n, not newlines). -/
def dry_update_payload : PatchPayload :=
  ⟨ "[existing description]\\n\\n---\\nAI Suggested Description\\n\\n[generated]".data⟩

/-- The idempotency sentinel `marker` of `handle_review`. -/
def marker : List Char := "AI Suggested Description".data

/-- The new description computed by `handle_review` before patching. -/
def reviewNewDesc (current generated : List Char) : List Char :=
  stripWS (current ++ "\n\n---\n".data ++ marker ++ "\n\n".data ++ generated)

/-- Which chat task an AI call serves. -/
inductive AiTask where
  | reviewTask
  | describeTask
deriving DecidableEq, Repr

/-- One outbound interaction performed by a flow. -/
inductive Call where
  | aiCall (task : AiTask)
  | postComment (url : List Char) (payload : CommentPayload)
  | getPr (url : List Char)
  | patchDescription (url : List Char) (payload : PatchPayload)
  | createPr (url : List Char) (payload : CreatePayload)
  | gitPush (branch : List Char)
deriving DecidableEq, Repr

/-- One line of flow output; dry-run previews carry their URL and payload
structurally rather than as rendered JSON text. -/
inductive OutItem where
  | msg (text : List Char)
  | commentPreview (url : List Char) (payload : CommentPayload)
  | patchPreview (url : List Char) (payload : PatchPayload)
  | createPreview (url : List Char) (payload : CreatePayload)
deriving DecidableEq, Repr

/-- How a flow ends: a return code handed to `sys.exit`, or an uncaught
exception. -/
inductive RunResult where
  | exits (code : Nat)
  | raises (msg : List Char)
deriving DecidableEq, Repr

/-- Whether a call is a description PATCH. -/
def isPatchCall : Call → Bool
  | Call.patchDescription _ _ => true
  | Call.aiCall _ => false
  | Call.postComment _ _ => false
  | Call.getPr _ => false
  | Call.createPr _ _ => false
  | Call.gitPush _ => false

/-- Number of description PATCH calls in a trace. -/
def countPatchCalls (cs : List Call) : Nat := (cs.filter isPatchCall).length

/-- Whether a call is an AI chat invocation. -/
def isAiCall : Call → Bool
  | Call.aiCall _ => true
  | Call.postComment _ _ => false
  | Call.getPr _ => false
  | Call.patchDescription _ _ => false
  | Call.createPr _ _ => false
  | Call.gitPush _ => false

/-- Number of AI calls in a trace. -/
def countAiCalls (cs : List Call) : Nat := (cs.filter isAiCall).length

/-- `require_ado_context(args)`: all four service values nonempty. -/
def adoContext (org_url project repo_id token : List Char) : Bool :=
  !org_url.isEmpty && !project.isEmpty && !repo_id.isEmpty && !token.isEmpty

/-- Messages printed by the flows (only the claim-relevant ones are spelled
out; diagnostic prints that carry data are represented by their fixed
part). -/
def msgNoDiffReview : List Char := "[ai_pr_review] No diff found; skipping.".data

/-- Skip message of the description-update idempotency guard. -/
def msgSkipUpdate : List Char :=
  "[ai_pr_review] PR description already contains AI section; skipping update.".data

/-- Dry-run banner of `handle_review`. -/
def msgDryRun : List Char :=
  "[ai_pr_review] Dry run enabled; skipping PR comment/update calls.".data

/-- Printed when dry-run has no PR id. -/
def msgNoPrId : List Char :=
  "[ai_pr_review] No PR ID available; only review content was generated.".data

/-- Printed when context or PR id is missing in the real review flow. -/
def msgMissingCtx : List Char :=
  "[ai_pr_review] Missing Azure DevOps context or token; printing output only.".data

/-- Printed after a successful comment post. -/
def msgPosted : List Char := "[ai_pr_review] Posted PR comment.".data

/-- Fixed part of the failed-comment diagnostic. -/
def msgPostFailed : List Char := "[ai_pr_review] Failed to post PR comment:".data

/-- Printed after a successful description update. -/
def msgUpdated : List Char := "[ai_pr_review] Updated PR description.".data

/-- Fixed part of the failed-update diagnostic. -/
def msgUpdateFailed : List Char :=
  "[ai_pr_review] Failed to update PR description:".data

/-- Header before the generated review content. -/
def msgGenerated : List Char := "[ai_pr_review] Generated review content:\n".data

/-- Printed by `handle_create` when the diff is empty. -/
def msgNoDiffCreate : List Char :=
  "[ai_pr_review] No diff found. Creating PR with fallback description.".data

/-- Dry-run banner of `handle_create`. -/
def msgDryCreate : List Char :=
  "[ai_pr_review] Dry run enabled; skipping PR creation.".data

/-- Header before the generated PR description. -/
def msgGenDesc : List Char := "[ai_pr_review] Generated PR description:\n".data

/-- Fallback description used when the diff is empty. -/
def fallbackNoDiff : List Char :=
  "Summary\n- No diff detected between selected branches.".data

/-- Fallback description used when AI generation yields nothing. -/
def fallbackAIFailed : List Char :=
  "Summary\n- AI description generation failed.".data

/-- Python `s.replace(pat, rep)` for nonempty `pat` (left-to-right,
non-overlapping); for empty `pat` it returns `s` unchanged (the empty case
is not exercised by the source, which replaces `"refs/heads/"`). -/
def replaceSub (pat rep : List Char) : List Char → List Char
  | [] => []
  | c :: rest =>
    if h : ¬ pat = [] ∧ List.isPrefixOf pat (c :: rest) then
      rep ++ replaceSub pat rep ((c :: rest).drop pat.length)
    else c :: replaceSub pat rep rest
termination_by s => s.length
decreasing_by
· have hp : 0 < pat.length := List.length_pos.mpr h.1
  simp only [List.length_drop, List.length_cons]
  omega
· simp only [List.length_cons]
  omega

/-- `default_title(source_branch, target_branch)` from the source. -/
def default_title (source_branch target_branch : List Char) : List Char :=
  replaceSub refsHeads [] (normalize_branch_for_ref source_branch) ++
    " into ".data ++ replaceSub refsHeads [] (normalize_branch_for_ref target_branch)

/-- The argparse-level inputs of `handle_review`. -/
structure ReviewArgs where
  source_branch : List Char
  target_branch : List Char
  pr_id : List Char
  update_description : Bool
  dry_run : Bool
  model : List Char
  org_url : List Char
  project : List Char
  repo_id : List Char
  token : List Char
deriving DecidableEq, Repr

/-- The environment `handle_review` interacts with: the git outputs, the
`SYSTEM_PULLREQUEST_PULLREQUESTID` variable, and the outcome of each external
call the flow may make (AI chat, comment post, PR read, description patch);
`Except.error` models a raised exception. -/
structure ReviewWorld where
  git_names : Option (List Char)
  git_diff : Option (List Char)
  system_pr_id : List Char
  ai_review_res : Except (List Char) (Option (List Char))
  ai_desc_res : Except (List Char) (Option (List Char))
  post_comment_res : Except (List Char) Unit
  get_pr_desc : Except (List Char) (Option (List Char))
  patch_res : Except (List Char) Unit
deriving Repr

/-- `handle_review(args)`: exit status (or uncaught exception), the outbound
calls in order, and the printed output. -/
def handle_review (args : ReviewArgs) (w : ReviewWorld) :
    RunResult × List Call × List OutItem :=
  let diff := (collect_diff args.source_branch args.target_branch
    w.git_names w.git_diff).2.1
  if stripWS diff = [] then
    (RunResult.exits 0, [], [OutItem.msg msgNoDiffReview])
  else
    match w.ai_review_res with
    | Except.error e => (RunResult.raises e, [Call.aiCall AiTask.reviewTask], [])
    | Except.ok resOpt =>
      let result := resOpt.getD []
      if result = [] then (RunResult.exits 1, [Call.aiCall AiTask.reviewTask], [])
      else
        let outsHead := [OutItem.msg msgGenerated, OutItem.msg result]
        let pr_id := if args.pr_id = [] then w.system_pr_id else args.pr_id
        if args.dry_run then
          (RunResult.exits 0, [Call.aiCall AiTask.reviewTask],
            outsHead ++ [OutItem.msg msgDryRun] ++
              (if pr_id = [] then [OutItem.msg msgNoPrId]
               else
                 [OutItem.commentPreview
                     (dry_comment_url args.org_url args.project args.repo_id pr_id)
                     (dry_comment_payload result)] ++
                   (if args.update_description then
                     [OutItem.patchPreview
                         (dry_update_url args.org_url args.project args.repo_id pr_id)
                         dry_update_payload]
                    else [])))
        else if ¬ (¬ pr_id = [] ∧
            adoContext args.org_url args.project args.repo_id args.token = true) then
          (RunResult.exits 0, [Call.aiCall AiTask.reviewTask],
            outsHead ++ [OutItem.msg msgMissingCtx])
        else
          let commentCall :=
            Call.postComment
              (post_pr_comment_url args.org_url args.project args.repo_id pr_id)
              (post_pr_comment_payload (commentHeader ++ result))
          let postOut :=
            match w.post_comment_res with
            | Except.ok _ => [OutItem.msg msgPosted]
            | Except.error _ => [OutItem.msg msgPostFailed]
          if ¬ args.update_description = true then
            (RunResult.exits 0, [Call.aiCall AiTask.reviewTask, commentCall],
              outsHead ++ postOut)
          else
            let getCall :=
              Call.getPr (get_pr_url args.org_url args.project args.repo_id pr_id)
            match w.get_pr_desc with
            | Except.error _ =>
              (RunResult.exits 0,
                [Call.aiCall AiTask.reviewTask, commentCall, getCall],
                outsHead ++ postOut ++ [OutItem.msg msgUpdateFailed])
            | Except.ok descOpt =>
              let current := descOpt.getD []
              if containsSub marker current then
                (RunResult.exits 0,
                  [Call.aiCall AiTask.reviewTask, commentCall, getCall],
                  outsHead ++ postOut ++ [OutItem.msg msgSkipUpdate])
              else
                match w.ai_desc_res with
                | Except.error _ =>
                  (RunResult.exits 0,
                    [Call.aiCall AiTask.reviewTask, commentCall, getCall,
                      Call.aiCall AiTask.describeTask],
                    outsHead ++ postOut ++ [OutItem.msg msgUpdateFailed])
                | Except.ok genOpt =>
                  let generated :=
                    if (genOpt.getD []) = [] then result else genOpt.getD []
                  let patchCall :=
                    Call.patchDescription
                      (update_pr_description_url args.org_url args.project
                        args.repo_id pr_id)
                      (update_pr_description_payload (reviewNewDesc current generated))
                  match w.patch_res with
                  | Except.ok _ =>
                    (RunResult.exits 0,
                      [Call.aiCall AiTask.reviewTask, commentCall, getCall,
                        Call.aiCall AiTask.describeTask, patchCall],
                      outsHead ++ postOut ++ [OutItem.msg msgUpdated])
                  | Except.error _ =>
                    (RunResult.exits 0,
                      [Call.aiCall AiTask.reviewTask, commentCall, getCall,
                        Call.aiCall AiTask.describeTask, patchCall],
                      outsHead ++ postOut ++ [OutItem.msg msgUpdateFailed])

/-- The argparse-level inputs of `handle_create`. -/
structure CreateArgs where
  source_branch : List Char
  target_branch : List Char
  title : List Char
  push : Bool
  dry_run : Bool
  model : List Char
  org_url : List Char
  project : List Char
  repo_id : List Char
  token : List Char
deriving DecidableEq, Repr

/-- The two fields `handle_create` reads from a successful `create_pr`
reply. -/
structure PrReply where
  pullRequestId : Option (List Char)
  url : Option (List Char)
deriving DecidableEq, Repr

/-- The environment `handle_create` interacts with.  `remote_url` is the
origin URL `infer_repo_id_from_git` resolves (empty when unavailable). -/
structure CreateWorld where
  remote_url : List Char
  push_res : Except (List Char) Unit
  git_names : Option (List Char)
  git_diff : Option (List Char)
  ai_desc_res : Except (List Char) (Option (List Char))
  create_res : Except (List Char) PrReply
deriving Repr

/-- The repo id after `handle_create`'s inference step. -/
def effRepoId (args : CreateArgs) (w : CreateWorld) : List Char :=
  if args.repo_id = [] then
    if ¬ extract_repo_id_from_remote w.remote_url = [] then
      extract_repo_id_from_remote w.remote_url
    else args.repo_id
  else args.repo_id

/-- The title used by `handle_create` (`args.title.strip() or
default_title(...)`). -/
def createTitle (args : CreateArgs) : List Char :=
  if ¬ stripWS args.title = [] then stripWS args.title
  else default_title args.source_branch args.target_branch

/-- Tail of `handle_create` after the description is fixed: dry-run preview,
context check, then the real creation call. -/
def handle_create_finish (args : CreateArgs) (repo_id description : List Char)
    (calls : List Call) (outs : List OutItem) (w : CreateWorld) :
    RunResult × List Call × List OutItem :=
  if args.dry_run then
    (RunResult.exits 0, calls,
      outs ++
        [OutItem.msg msgDryCreate,
          OutItem.createPreview (dry_create_url args.org_url args.project repo_id)
            (dry_create_payload args.source_branch args.target_branch
              (createTitle args) description),
          OutItem.msg msgGenDesc, OutItem.msg description])
  else if adoContext args.org_url args.project repo_id args.token = false then
    (RunResult.exits 1, calls,
      outs ++ [OutItem.msg msgGenDesc, OutItem.msg description])
  else
    match w.create_res with
    | Except.error e =>
      (RunResult.raises e,
        calls ++
          [Call.createPr (create_pr_url args.org_url args.project repo_id)
            (create_pr_payload args.source_branch args.target_branch
              (createTitle args) description)],
        outs)
    | Except.ok _ =>
      (RunResult.exits 0,
        calls ++
          [Call.createPr (create_pr_url args.org_url args.project repo_id)
            (create_pr_payload args.source_branch args.target_branch
              (createTitle args) description)],
        outs)

/-- `handle_create` after the optional push: repo-id inference has already
been folded into `effRepoId`. -/
def handle_create_main (args : CreateArgs) (w : CreateWorld)
    (startCalls : List Call) : RunResult × List Call × List OutItem :=
  let diff := (collect_diff args.source_branch args.target_branch
    w.git_names w.git_diff).2.1
  if stripWS diff = [] then
    handle_create_finish args (effRepoId args w) fallbackNoDiff startCalls
      [OutItem.msg msgNoDiffCreate] w
  else
    match w.ai_desc_res with
    | Except.error e =>
      (RunResult.raises e, startCalls ++ [Call.aiCall AiTask.describeTask], [])
    | Except.ok dOpt =>
      handle_create_finish args (effRepoId args w)
        (if (dOpt.getD []) = [] then fallbackAIFailed else dOpt.getD [])
        (startCalls ++ [Call.aiCall AiTask.describeTask]) [] w

/-- `handle_create(args)`: exit status (or uncaught exception), the outbound
calls in order, and the printed output. -/
def handle_create (args : CreateArgs) (w : CreateWorld) :
    RunResult × List Call × List OutItem :=
  if args.push then
    match w.push_res with
    | Except.error e => (RunResult.raises e, [Call.gitPush args.source_branch], [])
    | Except.ok _ => handle_create_main args w [Call.gitPush args.source_branch]
  else handle_create_main args w []

/-- Review arguments used by the C1 witness. -/
def c1args : ReviewArgs :=
  ⟨ "src".data, "tgt".data, "7".data, true, false, "m".data,
    "https://org/".data, "proj".data, "repo".data, "tok".data⟩

/-- PR description already containing the sentinel, used by the C1 witness. -/
def c1desc : List Char := "intro AI Suggested Description tail".data

/-- World used by the C1 witness. -/
def c1world : ReviewWorld :=
  ⟨none, some ( "x".data), [], Except.ok (some ( "review text".data)),
    Except.ok none, Except.ok (), Except.ok (some c1desc), Except.ok ()⟩

/-- Create arguments with empty service context and dry-run off (C7
counterexample). -/
def c7args : CreateArgs :=
  ⟨ "a".data, "b".data, [], false, false, "m".data, [], [], [], []⟩

/-- Create arguments with dry-run on (C7 witness). -/
def c7argsDry : CreateArgs :=
  ⟨ "a".data, "b".data, [], false, true, "m".data, [], [], [], []⟩

/-- Create world with an empty diff (C7). -/
def c7world : CreateWorld :=
  ⟨[], Except.ok (), none, none, Except.ok none, Except.ok ⟨none, none⟩⟩

/-- Review arguments used by the C7 witness. -/
def c7rargs : ReviewArgs :=
  ⟨ "a".data, "b".data, [], false, false, "m".data, [], [], [], []⟩

/-- Review world with an empty diff (C7 witness). -/
def c7rworld : ReviewWorld :=
  ⟨none, none, [], Except.ok none, Except.ok none, Except.ok (),
    Except.ok none, Except.ok ()⟩

/-- C10: `collect_diff` truncates only strictly above its bounds: a diff of at
most 120000 characters is returned unchanged with no marker, and a file list
of at most 100 entries is returned in full with no marker line. -/
theorem collect_diff_no_trunc_at_bounds (src tgt names diff : List Char)
    (hfiles : (splitlines names).length ≤ MAX_FILES)
    (hdiff : diff.length ≤ MAX_DIFF_CHARS) :
    (collect_diff src tgt (some names) (some diff)).1 = joinNL (splitlines names) ∧
    (collect_diff src tgt (some names) (some diff)).2.1 = diff := by
  unfold collect_diff
  simp only [Option.getD_some]
  rw [if_neg (by omega), if_neg (by omega), List.take_of_length_le hfiles]
  exact ⟨rfl, rfl⟩

/-- Witness for C10 at a diff of length exactly 120000 and a 2-entry file
list. -/
theorem collect_diff_no_trunc_at_bounds_witness :
    (splitlines c10names).length ≤ MAX_FILES ∧
    c10diff.length ≤ MAX_DIFF_CHARS ∧
    ((collect_diff [] [] (some c10names) (some c10diff)).1 =
        joinNL (splitlines c10names) ∧
      (collect_diff [] [] (some c10names) (some c10diff)).2.1 = c10diff) :=
  ⟨by decide, by rw [c10diff, List.length_replicate]; decide,
    collect_diff_no_trunc_at_bounds [] [] c10names c10diff (by decide)
      (by rw [c10diff, List.length_replicate]; decide)⟩

theorem countOccur_cons (pat : List Char) (c : Char) (rest : List Char) :
    countOccur pat (c :: rest) =
      (if List.isPrefixOf pat (c :: rest) then 1 else 0) + countOccur pat rest := rfl

theorem marker_cons : diffTruncMarker = '\n' :: diffTruncMarkerTl := by decide

theorem marker_length : diffTruncMarker.length = 18 := by decide

theorem markerNoBorder :
    ∀ k ∈ List.range 18,
      k = 0 ∨ List.take (18 - k) diffTruncMarker ≠ List.drop k diffTruncMarker := by
  decide

theorem marker_no_straddle (s X : List Char) (h18 : s.length < 18)
    (hns : List.take s.length diffTruncMarker ≠ s) :
    ¬ diffTruncMarker <+: s ++ X := by
  intro hpre
  apply hns
  have hm := List.prefix_iff_eq_take.mp hpre
  rw [marker_length, List.take_append_eq_append_take,
    List.take_of_length_le (by omega)] at hm
  conv_lhs => rw [hm]
  exact List.take_left' rfl

theorem marker_no_straddle_self (s : List Char) (h0 : s ≠ []) (h18 : s.length < 18) :
    ¬ diffTruncMarker <+: s ++ diffTruncMarker := by
  intro hpre
  have hm := List.prefix_iff_eq_take.mp hpre
  rw [marker_length, List.take_append_eq_append_take,
    List.take_of_length_le (by omega)] at hm
  have hdrop : List.drop s.length diffTruncMarker =
      List.take (18 - s.length) diffTruncMarker := by
    conv_lhs => rw [hm]
    exact List.drop_left' rfl
  rcases markerNoBorder s.length (by simp [List.mem_range]; omega) with hk | hk
  · exact h0 (List.length_eq_zero.mp hk)
  · exact hk hdrop.symm

theorem countOccur_marker_suffix :
    ∀ s : List Char, s <:+ diffTruncMarker → s ≠ diffTruncMarker →
      ∀ X, countOccur diffTruncMarker (s ++ X) = countOccur diffTruncMarker X := by
  intro s
  induction s with
  | nil => intro _ _ X; rw [List.nil_append]
  | cons c s' ih =>
    intro hs hne X
    have hlen : (c :: s').length ≤ 18 := by
      have h := hs.length_le; rwa [marker_length] at h
    have hlen18 : (c :: s').length < 18 := by
      rcases Nat.lt_or_ge (c :: s').length 18 with h | h
      · exact h
      · exfalso; exact hne (hs.sublist.eq_of_length (by rw [marker_length]; omega))
    have hs' : s' <:+ diffTruncMarker := (List.suffix_cons c s').trans hs
    have hs'ne : s' ≠ diffTruncMarker := by
      intro hEq
      have h := congrArg List.length hEq
      rw [marker_length] at h
      simp only [List.length_cons] at hlen18
      omega
    obtain ⟨t, ht⟩ := hs
    have htl : t.length + (c :: s').length = 18 := by
      have h := congrArg List.length ht
      rwa [List.length_append, marker_length] at h
    have hcs : (c :: s').length = s'.length + 1 := List.length_cons c s'
    have hdropt : List.drop t.length diffTruncMarker = c :: s' := by
      rw [← ht]; exact List.drop_left t (c :: s')
    have htake : List.take (c :: s').length diffTruncMarker ≠ c :: s' := by
      rcases markerNoBorder t.length (by simp [List.mem_range]; omega) with hk | hk
      · exfalso
        apply hne
        have ht0 : t = [] := List.length_eq_zero.mp hk
        rw [ht0, List.nil_append] at ht
        exact ht
      · intro hEq
        apply hk
        have h18t : 18 - t.length = (c :: s').length := by omega
        rw [h18t, hdropt]
        exact hEq
    have hnp : ¬ diffTruncMarker <+: (c :: s') ++ X :=
      marker_no_straddle (c :: s') X hlen18 htake
    have hb : List.isPrefixOf diffTruncMarker ((c :: s') ++ X) = false := by
      cases hb2 : List.isPrefixOf diffTruncMarker ((c :: s') ++ X) with
      | false => rfl
      | true => exact absurd ( List.isPrefixOf_iff_prefix.mp hb2) hnp
    rw [List.cons_append] at hb
    rw [List.cons_append, countOccur_cons, hb, ih hs' hs'ne X]
    simp

theorem isPrefixOf_append_of_le (p s t : List Char) (h : p.length ≤ s.length) :
    List.isPrefixOf p (s ++ t) = List.isPrefixOf p s := by
  cases hq : List.isPrefixOf p s with
  | true =>
    have hp : p <+: s := List.isPrefixOf_iff_prefix.mp hq
    exact List.isPrefixOf_iff_prefix.mpr (hp.trans ( List.prefix_append s t))
  | false =>
    cases hw : List.isPrefixOf p (s ++ t) with
    | false => rfl
    | true =>
      exfalso
      have hp : p <+: s ++ t := List.isPrefixOf_iff_prefix.mp hw
      have hpt := List.prefix_iff_eq_take.mp hp
      rw [List.take_append_of_le_length h] at hpt
      have hps : p <+: s := by rw [hpt]; exact List.take_prefix _ _
      have hcontra := List.isPrefixOf_iff_prefix.mpr hps
      rw [hq] at hcontra
      exact Bool.noConfusion hcontra

theorem countOccur_append_marker : ∀ xs : List Char,
    countOccur diffTruncMarker (xs ++ diffTruncMarker) =
      countOccur diffTruncMarker xs + 1 := by
  intro xs
  induction xs with
  | nil => rw [List.nil_append]; decide
  | cons c xs ih =>
    have hIf : List.isPrefixOf diffTruncMarker (c :: (xs ++ diffTruncMarker)) =
        List.isPrefixOf diffTruncMarker (c :: xs) := by
      rw [← List.cons_append]
      by_cases hlen : diffTruncMarker.length ≤ (c :: xs).length
      · exact isPrefixOf_append_of_le _ _ _ hlen
      · have h18 : (c :: xs).length < 18 := by rw [marker_length] at hlen; omega
        have hnp := marker_no_straddle_self (c :: xs) (by simp) h18
        have hL : List.isPrefixOf diffTruncMarker ((c :: xs) ++ diffTruncMarker) = false := by
          cases hb : List.isPrefixOf diffTruncMarker ((c :: xs) ++ diffTruncMarker) with
          | false => rfl
          | true => exact absurd ( List.isPrefixOf_iff_prefix.mp hb) hnp
        have hR : List.isPrefixOf diffTruncMarker (c :: xs) = false := by
          cases hb : List.isPrefixOf diffTruncMarker (c :: xs) with
          | false => rfl
          | true =>
            have hle := ( List.isPrefixOf_iff_prefix.mp hb).length_le
            rw [marker_length] at hle
            omega
        rw [hL, hR]
    rw [List.cons_append, countOccur_cons, countOccur_cons, ih, hIf, Nat.add_assoc]

theorem countOccur_marker_replicate (n : Nat) (X : List Char) :
    countOccur diffTruncMarker (List.replicate n 'a' ++ X) =
      countOccur diffTruncMarker X := by
  induction n with
  | zero => rw [List.replicate_zero, List.nil_append]
  | succ n ih =>
    have hb : List.isPrefixOf diffTruncMarker ('a' :: (List.replicate n 'a' ++ X)) = false := by
      cases hb2 : List.isPrefixOf diffTruncMarker ('a' :: (List.replicate n 'a' ++ X)) with
      | false => rfl
      | true =>
        exfalso
        have hp := List.isPrefixOf_iff_prefix.mp hb2
        rw [marker_cons, List.cons_prefix_cons] at hp
        exact absurd hp.1 (by decide)
    rw [List.replicate_succ, List.cons_append, countOccur_cons, ih, hb]
    simp

theorem countOccur_marker_front (X : List Char) :
    countOccur diffTruncMarker (diffTruncMarker ++ X) =
      countOccur diffTruncMarker X + 1 := by
  have htl : diffTruncMarkerTl <:+ diffTruncMarker := ⟨['\n'], by decide⟩
  have htlne : diffTruncMarkerTl ≠ diffTruncMarker := by decide
  have hpre : List.isPrefixOf diffTruncMarker (diffTruncMarker ++ X) = true :=
    List.isPrefixOf_iff_prefix.mpr ( List.prefix_append _ _)
  rw [show diffTruncMarker ++ X = '\n' :: (diffTruncMarkerTl ++ X) from by
    rw [marker_cons, List.cons_append]]
  rw [countOccur_cons]
  rw [show ('\n' :: (diffTruncMarkerTl ++ X)) = diffTruncMarker ++ X from by
    rw [marker_cons, List.cons_append]]
  rw [hpre, countOccur_marker_suffix diffTruncMarkerTl htl htlne X]
  simp [Nat.add_comm]

/-- C4 (amended): for a raw diff strictly longer than 120000 characters the
diff emitted by `collect_diff` is the 120000-character prefix followed by the
truncation marker, so its length is 120000 plus the marker length and it ends
with the marker; the marker occurs exactly once provided it does not already
occur within the first 120000 characters of the raw diff. -/
theorem collect_diff_truncation_marker (src tgt raw : List Char)
    (names : Option (List Char))
    (hlong : raw.length > MAX_DIFF_CHARS)
    (hclean : countOccur diffTruncMarker (raw.take MAX_DIFF_CHARS) = 0) :
    (collect_diff src tgt names (some raw)).2.1 =
        raw.take MAX_DIFF_CHARS ++ diffTruncMarker ∧
    (collect_diff src tgt names (some raw)).2.1.length =
        MAX_DIFF_CHARS + diffTruncMarker.length ∧
    diffTruncMarker <:+ (collect_diff src tgt names (some raw)).2.1 ∧
    countOccur diffTruncMarker ((collect_diff src tgt names (some raw)).2.1) = 1 := by
  have hout : (collect_diff src tgt names (some raw)).2.1 =
      raw.take MAX_DIFF_CHARS ++ diffTruncMarker := by
    unfold collect_diff
    simp only [Option.getD_some]
    rw [if_pos hlong]
  refine ⟨hout, ?_, ?_, ?_⟩
  · rw [hout, List.length_append, List.length_take]
    omega
  · rw [hout]
    exact List.suffix_append _ _
  · rw [hout, countOccur_append_marker, hclean]

/-- C4 counterexample: an over-long raw diff that already contains the
truncation marker makes the marker occur twice in `collect_diff`'s output, so
the claim's "exactly once" part fails as universally stated. -/
theorem collect_diff_marker_twice :
    c4raw.length > MAX_DIFF_CHARS ∧
    countOccur diffTruncMarker ((collect_diff [] [] none (some c4raw)).2.1) = 2 := by
  have hm18 : diffTruncMarker.length = 18 := marker_length
  have hMAX : MAX_DIFF_CHARS = 120000 := rfl
  have hlen : c4raw.length = 120018 := by
    rw [c4raw, List.length_append, List.length_replicate, hm18]
  have hlong : c4raw.length > MAX_DIFF_CHARS := by omega
  refine ⟨hlong, ?_⟩
  have hout : (collect_diff [] [] none (some c4raw)).2.1 =
      c4raw.take MAX_DIFF_CHARS ++ diffTruncMarker := by
    unfold collect_diff
    simp only [Option.getD_some]
    rw [if_pos hlong]
  have htake : c4raw.take MAX_DIFF_CHARS =
      diffTruncMarker ++ List.replicate 119982 'a' := by
    rw [c4raw, List.take_append_eq_append_take,
      List.take_of_length_le (by omega), List.take_replicate]
    congr 1
  rw [hout, htake, List.append_assoc, countOccur_marker_front,
    countOccur_marker_replicate]
  decide

/-- Witness for the amended C4 at a marker-free raw diff of length 120001. -/
theorem collect_diff_truncation_marker_witness :
    c4wraw.length > MAX_DIFF_CHARS ∧
    countOccur diffTruncMarker (c4wraw.take MAX_DIFF_CHARS) = 0 ∧
    ((collect_diff [] [] none (some c4wraw)).2.1 =
        c4wraw.take MAX_DIFF_CHARS ++ diffTruncMarker ∧
      (collect_diff [] [] none (some c4wraw)).2.1.length =
        MAX_DIFF_CHARS + diffTruncMarker.length ∧
      diffTruncMarker <:+ (collect_diff [] [] none (some c4wraw)).2.1 ∧
      countOccur diffTruncMarker ((collect_diff [] [] none (some c4wraw)).2.1) = 1) := by
  have h1 : c4wraw.length > MAX_DIFF_CHARS := by
    rw [c4wraw, List.length_replicate]
    decide
  have h2 : countOccur diffTruncMarker (c4wraw.take MAX_DIFF_CHARS) = 0 := by
    rw [c4wraw, List.take_replicate,
      show List.replicate (min MAX_DIFF_CHARS 120001) 'a' =
        List.replicate (min MAX_DIFF_CHARS 120001) 'a' ++ [] from
        (List.append_nil _).symm,
      countOccur_marker_replicate]
    rfl
  exact ⟨h1, h2, collect_diff_truncation_marker [] [] c4wraw none h1 h2⟩

theorem wsFreeEnd_strip (b : List Char) : wsFreeEnd (stripWS b) :=
  List.rdropWhile_idempotent isPySpace (lstripWS b)

theorem getD_default_of_le (l : List (List Char)) (n : Nat) (h : l.length ≤ n) :
    l.getD n [] = [] :=
  List.getD_eq_default _ _ h

theorem wsFreeEnd_suffix (s t : List Char) (hst : s <:+ t) (ht : wsFreeEnd t) :
    wsFreeEnd s := by
  obtain ⟨u, hu⟩ := hst
  subst hu
  rcases eq_or_ne s [] with h | h
  · rw [h]; rfl
  · rw [wsFreeEnd, rstripWS, List.rdropWhile_eq_self_iff]
    intro hl
    have huse : u ++ s ≠ [] := fun hh => h (List.append_eq_nil.mp hh).2
    have hnp := List.rdropWhile_eq_self_iff.mp ht huse
    rw [List.getLast_append_of_ne_nil hl] at hnp
    exact hnp

theorem wsFreeEnd_append (A B : List Char) (hB : B ≠ []) (h : wsFreeEnd B) :
    wsFreeEnd (A ++ B) := by
  rw [wsFreeEnd, rstripWS, List.rdropWhile_eq_self_iff]
  intro hl
  rw [List.getLast_append_of_ne_nil hB]
  exact List.rdropWhile_eq_self_iff.mp h hB

theorem strip_cons_eq_self (c : Char) (s : List Char)
    (hh : isPySpace c = false) (hl : wsFreeEnd (c :: s)) :
    stripWS (c :: s) = c :: s := by
  rw [stripWS, lstripWS, List.dropWhile_cons_of_neg (by simp [hh])]
  exact hl

theorem breakAtChar_some (sep : Char) :
    ∀ s p q : List Char, breakAtChar sep s = some (p, q) → s = p ++ sep :: q := by
  intro s
  induction s with
  | nil => intro p q h; simp [breakAtChar] at h
  | cons c rest ih =>
    intro p q h
    by_cases hc : c = sep
    · rw [breakAtChar, if_pos hc] at h
      simp only [Option.some.injEq, Prod.mk.injEq] at h
      rw [← h.1, ← h.2, hc, List.nil_append]
    · rw [breakAtChar, if_neg hc] at h
      cases hb : breakAtChar sep rest with
      | none => rw [hb] at h; simp at h
      | some pq =>
        obtain ⟨p1, q1⟩ := pq
        rw [hb] at h
        simp only [Option.some.injEq, Prod.mk.injEq] at h
        rw [← h.1, ← h.2, ih p1 q1 hb, List.cons_append]

theorem breakAtChar_append (sep : Char) (p rest : List Char) (hp : sep ∉ p) :
    breakAtChar sep (p ++ sep :: rest) = some (p, rest) := by
  induction p with
  | nil => simp [breakAtChar]
  | cons c p ih =>
    have hc : ¬ c = sep := fun h => hp (h ▸ List.mem_cons_self c p)
    have ihp : sep ∉ p := fun hm => hp (List.mem_cons_of_mem c hm)
    rw [List.cons_append, breakAtChar, if_neg hc, ih ihp]

theorem splitChar_length_le (sep : Char) :
    ∀ (n : Nat) (s : List Char), (splitChar sep n s).length ≤ n + 1 := by
  intro n
  induction n with
  | zero => intro s; rw [splitChar]; simp
  | succ n ih =>
    intro s
    rw [splitChar]
    cases hb : breakAtChar sep s with
    | none => simp
    | some pq =>
      obtain ⟨p, q⟩ := pq
      simp only [List.length_cons]
      have := ih q
      omega

theorem splitChar_getD_suffix (sep : Char) :
    ∀ (n : Nat) (s : List Char), (splitChar sep n s).length = n + 1 →
      (splitChar sep n s).getD n [] <:+ s := by
  intro n
  induction n with
  | zero => intro s _; rw [splitChar]; exact List.suffix_refl s
  | succ n ih =>
    intro s hlen
    rw [splitChar] at hlen ⊢
    cases hb : breakAtChar sep s with
    | none =>
      rw [hb] at hlen
      simp only [List.length_cons, List.length_nil] at hlen
      omega
    | some pq =>
      obtain ⟨p, q⟩ := pq
      rw [hb] at hlen
      simp only [List.length_cons] at hlen
      simp only [List.getD_cons_succ]
      have hq : q <:+ s := by
        rw [breakAtChar_some sep s p q hb]
        exact ⟨p ++ [sep], by rw [List.append_assoc]; rfl⟩
      exact (ih q (by omega)).trans hq

theorem normalize_wsFreeEnd (b : List Char) :
    wsFreeEnd (normalize_branch_for_ref b) := by
  have hv := wsFreeEnd_strip b
  simp only [normalize_branch_for_ref]
  split
  · exact hv
  · split
    · next h => exact wsFreeEnd_suffix _ _ (splitChar_getD_suffix '/' 3 _ h.2) hv
    · split
      · next h => exact wsFreeEnd_suffix _ _ (splitChar_getD_suffix '/' 2 _ h.2) hv
      · split
        · rcases Nat.lt_or_ge (splitChar '/' 1 (stripWS b)).length 2 with hl | hl
          · rw [getD_default_of_le _ _ (by omega)]
            rfl
          · have h2 : (splitChar '/' 1 (stripWS b)).length = 2 :=
              Nat.le_antisymm (splitChar_length_le '/' 1 (stripWS b)) hl
            exact wsFreeEnd_suffix _ _ (splitChar_getD_suffix '/' 1 _ h2) hv
        · exact hv

theorem to_ref_qualified (x : List Char) : refsHeads <+: to_ref x := by
  simp only [to_ref]
  split
  · next h => exact List.isPrefixOf_iff_prefix.mp h
  · exact List.prefix_append refsHeads (normalize_branch_for_ref x)

theorem to_ref_wsFreeEnd (x : List Char) : wsFreeEnd (to_ref x) := by
  simp only [to_ref]
  split
  · exact normalize_wsFreeEnd x
  · rcases eq_or_ne (normalize_branch_for_ref x) [] with h | h
    · rw [h, List.append_nil]
      decide
    · exact wsFreeEnd_append _ _ h (normalize_wsFreeEnd x)

theorem strip_to_ref (x : List Char) : stripWS (to_ref x) = to_ref x := by
  obtain ⟨t, ht⟩ := to_ref_qualified x
  have hcons : to_ref x = 'r' :: ( "efs/heads/".data ++ t) := by
    rw [← ht, show refsHeads = 'r' :: "efs/heads/".data from by decide]
    rfl
  rw [hcons]
  exact strip_cons_eq_self _ _ (by decide) (hcons ▸ to_ref_wsFreeEnd x)

theorem to_ref_eq_self (y : List Char) (hn : normalize_branch_for_ref y = y)
    (hb : List.isPrefixOf refsHeads y = true) : to_ref y = y := by
  simp only [to_ref, hn]
  rw [if_pos hb]

/-- C5: branch-ref normalisation `to_ref` is idempotent and its output always
begins with the fully-qualified namespace `refs/heads/`. -/
theorem to_ref_idempotent (x : List Char) :
    to_ref (to_ref x) = to_ref x ∧ refsHeads <+: to_ref x := by
  refine ⟨?_, to_ref_qualified x⟩
  have hb : List.isPrefixOf refsHeads (to_ref x) = true :=
    List.isPrefixOf_iff_prefix.mpr (to_ref_qualified x)
  have hnorm : normalize_branch_for_ref (to_ref x) = to_ref x := by
    simp only [normalize_branch_for_ref]
    rw [strip_to_ref x, if_pos hb]
  exact to_ref_eq_self _ hnorm hb

theorem neg_of_eq_false {b : Bool} (h : b = false) : ¬ b = true := by simp [h]

theorem isPrefixOf_false_of_not (p l : List Char) (h : ¬ p <+: l) :
    List.isPrefixOf p l = false := by
  cases hb : List.isPrefixOf p l with
  | false => rfl
  | true => exact absurd ( List.isPrefixOf_iff_prefix.mp hb) h

theorem isPrefixOf_append_left (p s t : List Char) :
    List.isPrefixOf (p ++ s) (p ++ t) = List.isPrefixOf s t := by
  induction p with
  | nil => rfl
  | cons c p ih => simp [List.isPrefixOf_cons₂, ih]

theorem isPrefixOf_ne_head (a b : Char) (as bs : List Char) (h : ¬ a = b) :
    List.isPrefixOf (a :: as) (b :: bs) = false := by
  rw [List.isPrefixOf_cons₂]
  simp [h]

theorem mismatchPre (P : List Char) (a b : Char) (as bs : List Char) (h : ¬ a = b) :
    List.isPrefixOf (P ++ a :: as) (P ++ b :: bs) = false := by
  rw [isPrefixOf_append_left]
  exact isPrefixOf_ne_head a b as bs h

theorem splitChar_step (sep : Char) (n : Nat) (p rest : List Char) (hp : sep ∉ p) :
    splitChar sep (n + 1) (p ++ sep :: rest) = p :: splitChar sep n rest := by
  rw [splitChar, breakAtChar_append sep p rest hp]

theorem wsFreeEnd_slash_cons (feature : List Char) (hws : wsFreeEnd feature) :
    wsFreeEnd ('/' :: feature) := by
  rcases eq_or_ne feature [] with h | h
  · rw [h]; decide
  · exact wsFreeEnd_append ['/'] feature h hws

theorem normalize_origin_form (feature : List Char) (hws : wsFreeEnd feature)
    (hrh : ¬ refsHeads <+: feature) :
    to_ref (originSeg ++ feature) = refsHeads ++ feature := by
  have hconsIn : originSeg ++ feature = 'o' :: ( "rigin/".data ++ feature) := by
    rw [show originSeg = 'o' :: "rigin/".data from by decide]
    rfl
  have hwsin : wsFreeEnd (originSeg ++ feature) := by
    rw [show originSeg ++ feature = "origin".data ++ ('/' :: feature) from by
      rw [show originSeg = "origin".data ++ ['/'] from by decide, List.append_assoc]
      rfl]
    exact wsFreeEnd_append _ _ (List.cons_ne_nil _ _) (wsFreeEnd_slash_cons feature hws)
  have hstripIn : stripWS (originSeg ++ feature) = originSeg ++ feature := by
    rw [hconsIn]
    exact strip_cons_eq_self _ _ (by decide) (hconsIn ▸ hwsin)
  have h1 : List.isPrefixOf refsHeads (originSeg ++ feature) = false := by
    rw [show refsHeads = 'r' :: "efs/heads/".data from by decide, hconsIn]
    exact isPrefixOf_ne_head _ _ _ _ (by decide)
  have h2 : List.isPrefixOf refsRemotes (originSeg ++ feature) = false := by
    rw [show refsRemotes = 'r' :: "efs/remotes/".data from by decide, hconsIn]
    exact isPrefixOf_ne_head _ _ _ _ (by decide)
  have h3 : List.isPrefixOf remotesSeg (originSeg ++ feature) = false := by
    rw [show remotesSeg = 'r' :: "emotes/".data from by decide, hconsIn]
    exact isPrefixOf_ne_head _ _ _ _ (by decide)
  have h4 : List.isPrefixOf originSeg (originSeg ++ feature) = true :=
    List.isPrefixOf_iff_prefix.mpr ( List.prefix_append _ _)
  have hsp : splitChar '/' 1 (originSeg ++ feature) = [ "origin".data, feature] := by
    rw [show originSeg ++ feature = "origin".data ++ '/' :: feature from by
      rw [show originSeg = "origin".data ++ ['/'] from by decide, List.append_assoc]
      rfl]
    rw [splitChar_step '/' 0 _ _ (by decide)]
    rfl
  have hnorm : normalize_branch_for_ref (originSeg ++ feature) = feature := by
    simp only [normalize_branch_for_ref]
    rw [hstripIn, if_neg (neg_of_eq_false h1),
      if_neg (fun hc => neg_of_eq_false h2 hc.1),
      if_neg (fun hc => neg_of_eq_false h3 hc.1),
      if_pos h4, hsp]
    rfl
  simp only [to_ref, hnorm]
  rw [if_neg (neg_of_eq_false (isPrefixOf_false_of_not _ _ hrh))]

theorem normalize_refsRemotes_form (als feature : List Char) (hA : '/' ∉ als)
    (hws : wsFreeEnd feature) (hrh : ¬ refsHeads <+: feature) :
    to_ref (refsRemotes ++ (als ++ '/' :: feature)) = refsHeads ++ feature := by
  have hconsIn : refsRemotes ++ (als ++ '/' :: feature) =
      'r' :: ( "efs/remotes/".data ++ (als ++ '/' :: feature)) := by
    rw [show refsRemotes = 'r' :: "efs/remotes/".data from by decide]
    rfl
  have hwsin : wsFreeEnd (refsRemotes ++ (als ++ '/' :: feature)) := by
    rw [← List.append_assoc]
    exact wsFreeEnd_append _ _ (List.cons_ne_nil _ _) (wsFreeEnd_slash_cons feature hws)
  have hstripIn : stripWS (refsRemotes ++ (als ++ '/' :: feature)) =
      refsRemotes ++ (als ++ '/' :: feature) := by
    rw [hconsIn]
    exact strip_cons_eq_self _ _ (by decide) (hconsIn ▸ hwsin)
  have h1 : List.isPrefixOf refsHeads (refsRemotes ++ (als ++ '/' :: feature)) = false := by
    rw [show refsHeads = "refs/".data ++ 'h' :: "eads/".data from by decide,
      show refsRemotes ++ (als ++ '/' :: feature) =
        "refs/".data ++ 'r' :: ( "emotes/".data ++ (als ++ '/' :: feature)) from by
        rw [show refsRemotes = "refs/".data ++ 'r' :: "emotes/".data from by decide,
          List.append_assoc]
        rfl]
    exact mismatchPre _ _ _ _ _ (by decide)
  have h2 : List.isPrefixOf refsRemotes (refsRemotes ++ (als ++ '/' :: feature)) = true :=
    List.isPrefixOf_iff_prefix.mpr ( List.prefix_append _ _)
  have hsp : splitChar '/' 3 (refsRemotes ++ (als ++ '/' :: feature)) =
      [ "refs".data, "remotes".data, als, feature] := by
    rw [show refsRemotes ++ (als ++ '/' :: feature) =
        "refs".data ++ '/' :: ( "remotes".data ++ '/' :: (als ++ '/' :: feature)) from by
        rw [show refsRemotes =
          ( "refs".data ++ ['/']) ++ ( "remotes".data ++ ['/']) from by decide]
        simp [List.append_assoc, List.singleton_append, List.cons_append]]
    rw [splitChar_step '/' 2 _ _ (by decide),
      splitChar_step '/' 1 _ _ (by decide),
      splitChar_step '/' 0 _ _ hA]
    rfl
  have hnorm : normalize_branch_for_ref (refsRemotes ++ (als ++ '/' :: feature)) =
      feature := by
    simp only [normalize_branch_for_ref]
    rw [hstripIn, if_neg (neg_of_eq_false h1), if_pos ⟨h2, by rw [hsp]; rfl⟩, hsp]
    rfl
  simp only [to_ref, hnorm]
  rw [if_neg (neg_of_eq_false (isPrefixOf_false_of_not _ _ hrh))]

theorem normalize_remotesSeg_form (als feature : List Char) (hA : '/' ∉ als)
    (hws : wsFreeEnd feature) (hrh : ¬ refsHeads <+: feature) :
    to_ref (remotesSeg ++ (als ++ '/' :: feature)) = refsHeads ++ feature := by
  have hconsIn : remotesSeg ++ (als ++ '/' :: feature) =
      'r' :: ( "emotes/".data ++ (als ++ '/' :: feature)) := by
    rw [show remotesSeg = 'r' :: "emotes/".data from by decide]
    rfl
  have hwsin : wsFreeEnd (remotesSeg ++ (als ++ '/' :: feature)) := by
    rw [← List.append_assoc]
    exact wsFreeEnd_append _ _ (List.cons_ne_nil _ _) (wsFreeEnd_slash_cons feature hws)
  have hstripIn : stripWS (remotesSeg ++ (als ++ '/' :: feature)) =
      remotesSeg ++ (als ++ '/' :: feature) := by
    rw [hconsIn]
    exact strip_cons_eq_self _ _ (by decide) (hconsIn ▸ hwsin)
  have h1 : List.isPrefixOf refsHeads (remotesSeg ++ (als ++ '/' :: feature)) = false := by
    rw [show refsHeads = "re".data ++ 'f' :: "s/heads/".data from by decide,
      show remotesSeg ++ (als ++ '/' :: feature) =
        "re".data ++ 'm' :: ( "otes/".data ++ (als ++ '/' :: feature)) from by
        rw [show remotesSeg = "re".data ++ 'm' :: "otes/".data from by decide,
          List.append_assoc]
        rfl]
    exact mismatchPre _ _ _ _ _ (by decide)
  have h2 : List.isPrefixOf refsRemotes (remotesSeg ++ (als ++ '/' :: feature)) = false := by
    rw [show refsRemotes = "re".data ++ 'f' :: "s/remotes/".data from by decide,
      show remotesSeg ++ (als ++ '/' :: feature) =
        "re".data ++ 'm' :: ( "otes/".data ++ (als ++ '/' :: feature)) from by
        rw [show remotesSeg = "re".data ++ 'm' :: "otes/".data from by decide,
          List.append_assoc]
        rfl]
    exact mismatchPre _ _ _ _ _ (by decide)
  have h3 : List.isPrefixOf remotesSeg (remotesSeg ++ (als ++ '/' :: feature)) = true :=
    List.isPrefixOf_iff_prefix.mpr ( List.prefix_append _ _)
  have hsp : splitChar '/' 2 (remotesSeg ++ (als ++ '/' :: feature)) =
      [ "remotes".data, als, feature] := by
    rw [show remotesSeg ++ (als ++ '/' :: feature) =
        "remotes".data ++ '/' :: (als ++ '/' :: feature) from by
        rw [show remotesSeg = "remotes".data ++ ['/'] from by decide,
          List.append_assoc]
        rfl]
    rw [splitChar_step '/' 1 _ _ (by decide), splitChar_step '/' 0 _ _ hA]
    rfl
  have hnorm : normalize_branch_for_ref (remotesSeg ++ (als ++ '/' :: feature)) =
      feature := by
    simp only [normalize_branch_for_ref]
    rw [hstripIn, if_neg (neg_of_eq_false h1),
      if_neg (fun hc => neg_of_eq_false h2 hc.1),
      if_pos ⟨h3, by rw [hsp]; rfl⟩, hsp]
    rfl
  simp only [to_ref, hnorm]
  rw [if_neg (neg_of_eq_false (isPrefixOf_false_of_not _ _ hrh))]

/-- C8 (amended): the remote-alias segment is stripped and replaced by the
`refs/heads/` namespace for the bare-alias form only when the alias is
`origin`, and for the fully-qualified remote-tracking forms
`refs/remotes/<alias>/...` and `remotes/<alias>/...` for every slash-free
alias (the hypotheses also require the branch segment to carry no trailing
whitespace and not itself to start with `refs/heads/`). -/
theorem to_ref_remote_alias_stripping (als feature : List Char) (hA : '/' ∉ als)
    (hws : wsFreeEnd feature) (hrh : ¬ refsHeads <+: feature) :
    to_ref (originSeg ++ feature) = refsHeads ++ feature ∧
    to_ref (refsRemotes ++ (als ++ '/' :: feature)) = refsHeads ++ feature ∧
    to_ref (remotesSeg ++ (als ++ '/' :: feature)) = refsHeads ++ feature :=
  ⟨normalize_origin_form feature hws hrh,
    normalize_refsRemotes_form als feature hA hws hrh,
    normalize_remotesSeg_form als feature hA hws hrh⟩

/-- C8 counterexample: for the bare remote-tracking form with the alias
`upstream`, the alias segment is not stripped: `to_ref` yields
`refs/heads/upstream/feature`, not `refs/heads/feature`. -/
theorem to_ref_remote_alias_counterexample :
    to_ref c8bad = "refs/heads/upstream/feature".data ∧
    to_ref c8bad ≠ refsHeads ++ "feature".data := by
  decide

/-- Witness for the amended C8 at alias `upstream` and branch `feature`. -/
theorem to_ref_remote_alias_stripping_witness :
    ('/' ∉ "upstream".data ∧ wsFreeEnd "feature".data ∧
      ¬ refsHeads <+: "feature".data) ∧
    (to_ref (originSeg ++ "feature".data) = refsHeads ++ "feature".data ∧
      to_ref (refsRemotes ++ ( "upstream".data ++ '/' :: "feature".data)) =
        refsHeads ++ "feature".data ∧
      to_ref (remotesSeg ++ ( "upstream".data ++ '/' :: "feature".data)) =
        refsHeads ++ "feature".data) :=
  ⟨⟨by decide, by decide, by decide⟩,
    to_ref_remote_alias_stripping "upstream".data "feature".data (by decide)
      (by decide) (by decide)⟩

/-- C9: the repository-identifier resolver returns `myrepo` for an HTTPS URL
with the `/_git/` marker, for an SSH v3-style URL ending in
`v3/org/project/myrepo`, and for a generic path URL ending in `myrepo.git`;
an empty remote URL yields the empty string without raising. -/
theorem extract_repo_id_dialects :
    extract_repo_id_from_remote c9urlGit = "myrepo".data ∧
    extract_repo_id_from_remote c9urlSsh = "myrepo".data ∧
    extract_repo_id_from_remote c9urlPath = "myrepo".data ∧
    extract_repo_id_from_remote [] = [] := by
  decide

theorem containsSub_iff (pat : List Char) :
    ∀ s, containsSub pat s = true ↔ ∃ u v, s = u ++ pat ++ v := by
  intro s
  induction s with
  | nil =>
    rw [containsSub]
    constructor
    · intro h
      have hp : pat = [] :=
        List.prefix_nil.mp ( List.isPrefixOf_iff_prefix.mp h)
      exact ⟨[], [], by rw [hp]; rfl⟩
    · rintro ⟨u, v, hv⟩
      obtain ⟨hup, hv0⟩ := List.append_eq_nil.mp hv.symm
      obtain ⟨hu, hp⟩ := List.append_eq_nil.mp hup
      rw [hp]
      exact List.isPrefixOf_iff_prefix.mpr List.nil_prefix
  | cons c rest ih =>
    rw [containsSub, Bool.or_eq_true, ih]
    constructor
    · rintro (h | ⟨u, v, hv⟩)
      · obtain ⟨t, ht⟩ := List.isPrefixOf_iff_prefix.mp h
        exact ⟨[], t, by rw [List.nil_append, ht]⟩
      · exact ⟨c :: u, v, by rw [hv]; rfl⟩
    · rintro ⟨u, v, hv⟩
      cases u with
      | nil =>
        left
        rw [List.nil_append] at hv
        exact List.isPrefixOf_iff_prefix.mpr ⟨v, hv.symm⟩
      | cons u0 u' =>
        right
        rw [List.cons_append, List.cons_append] at hv
        injection hv with _ hv'
        exact ⟨u', v, hv'⟩

theorem containsSub_map_toLower (pat s : List Char) (hfix : toLowerL pat = pat)
    (h : containsSub pat s = true) : containsSub pat (toLowerL s) = true := by
  obtain ⟨u, v, rfl⟩ := (containsSub_iff pat s).mp h
  apply (containsSub_iff pat _).mpr
  refine ⟨toLowerL u, toLowerL v, ?_⟩
  rw [toLowerL, List.map_append, List.map_append]
  rw [show List.map Char.toLower pat = pat from hfix]
  rfl

/-- C6: with no explicit provider override, a model name containing `claude`
routes to the Claude adapter and a model name matching none of the
recognised patterns routes to the generic chat-completion adapter; a
nonempty override is used (lower-cased) regardless of the model name. -/
theorem ai_chat_provider_routing (m p : List Char) :
    (containsSub claudeTok m = true → ai_chat_route [] m = Adapter.claude) ∧
    ((List.isPrefixOf claudeTok m = false ∧
      containsSub claudeTok (toLowerL m) = false ∧
      List.isPrefixOf ( "gpt".data) m = false ∧
      List.isPrefixOf ( "o1".data) m = false ∧
      List.isPrefixOf ( "nvidia/".data) m = false) →
      ai_chat_route [] m = Adapter.openai) ∧
    (¬ p = [] → selectProvider p m = toLowerL p) := by
  refine ⟨?_, ?_, ?_⟩
  · intro h
    have h2 : containsSub claudeTok (toLowerL m) = true :=
      containsSub_map_toLower claudeTok m (by decide) h
    have hsel : selectProvider [] m = "claude".data := by
      simp only [selectProvider]
      rw [show toLowerL ([] : List Char) = [] from rfl, if_pos rfl, h2,
        Bool.or_true, if_pos rfl]
    simp only [ai_chat_route]
    rw [hsel]
    decide
  · rintro ⟨h1, h2, h3, h4, h5⟩
    have hsel : selectProvider [] m = "openai".data := by
      simp only [selectProvider]
      rw [show toLowerL ([] : List Char) = [] from rfl, if_pos rfl, h1, h2, h3, h4, h5]
      simp
    simp only [ai_chat_route]
    rw [hsel]
    decide
  · intro hp
    have hlp : ¬ toLowerL p = [] := by
      intro hc
      exact hp (List.map_eq_nil_iff.mp hc)
    simp only [selectProvider]
    rw [if_neg hlp]

/-- Witness for C6: a Claude-family model, an unrecognised model, and an
explicit override. -/
theorem ai_chat_provider_routing_witness :
    (containsSub claudeTok c6mClaude = true ∧
      ai_chat_route [] c6mClaude = Adapter.claude) ∧
    ((List.isPrefixOf claudeTok c6mOther = false ∧
      containsSub claudeTok (toLowerL c6mOther) = false ∧
      List.isPrefixOf ( "gpt".data) c6mOther = false ∧
      List.isPrefixOf ( "o1".data) c6mOther = false ∧
      List.isPrefixOf ( "nvidia/".data) c6mOther = false) ∧
      ai_chat_route [] c6mOther = Adapter.openai) ∧
    (¬ c6pOverride = [] ∧ selectProvider c6pOverride c6mClaude = toLowerL c6pOverride) :=
  ⟨⟨by decide, (ai_chat_provider_routing c6mClaude []).1 (by decide)⟩,
    ⟨by decide, (ai_chat_provider_routing c6mOther []).2.1 (by decide)⟩,
    ⟨by decide, (ai_chat_provider_routing c6mClaude c6pOverride).2.2 (by decide)⟩⟩

/-- C3 (amended): the generic chat-completion adapter converts a transport
failure to `None`; the Claude adapter converts only the missing-package and
missing-credential conditions to `None` and lets a transport failure
propagate as an exception. -/
theorem adapter_transport_failure (cenv : ClaudeEnv) (oenv : OpenAiEnv)
    (e : List Char)
    (hinst : cenv.anthropic_installed = true)
    (hkeys : ¬ cenv.anthropic_api_key = [] ∨ ¬ cenv.claude_api_key = []) :
    openai_chat oenv (Except.error e) = Except.ok none ∧
    claude_chat cenv (Except.error e) = Except.error e := by
  constructor
  · by_cases h : (if ¬ oenv.openai_api_key = [] then oenv.openai_api_key
        else oenv.nvidia_api_key) = []
    · simp only [openai_chat]
      rw [if_pos h]
    · simp only [openai_chat]
      rw [if_neg h]
  · simp only [claude_chat]
    rw [if_neg (by simp [hinst])]
    have hkey : ¬ (if ¬ cenv.anthropic_api_key = [] then cenv.anthropic_api_key
        else cenv.claude_api_key) = [] := by
      by_cases ha : cenv.anthropic_api_key = []
      · rw [if_neg (by simp [ha])]
        rcases hkeys with h | h
        · exact absurd ha h
        · exact h
      · rw [if_pos ha]
        exact ha
    rw [if_neg hkey]

/-- C3 counterexample: with the anthropic package installed and a credential
set, a transport failure in the Claude adapter propagates as an exception
instead of being converted to `None`. -/
theorem claude_chat_propagates :
    claude_chat c3env (Except.error ( "HTTP 500".data)) =
      Except.error ( "HTTP 500".data) ∧
    claude_chat c3env (Except.error ( "HTTP 500".data)) ≠
      Except.ok none := by
  constructor
  · rfl
  · intro h
    exact Except.noConfusion h

/-- Witness for the amended C3. -/
theorem adapter_transport_failure_witness :
    (c3env.anthropic_installed = true ∧
      (¬ c3env.anthropic_api_key = [] ∨ ¬ c3env.claude_api_key = [])) ∧
    (openai_chat ⟨[], []⟩ (Except.error ( "boom".data)) = Except.ok none ∧
      claude_chat c3env (Except.error ( "boom".data)) =
        Except.error ( "boom".data)) :=
  ⟨⟨rfl, Or.inl (by decide)⟩,
    adapter_transport_failure c3env ⟨[], []⟩ ( "boom".data) rfl
      (Or.inl (by decide))⟩

theorem rdropWhile_append_of_ne (p : Char → Bool) (X Y : List Char)
    (h : List.rdropWhile p Y ≠ []) :
    List.rdropWhile p (X ++ Y) = X ++ List.rdropWhile p Y := by
  rw [List.rdropWhile, List.reverse_append, List.dropWhile_append]
  have h2 : (List.dropWhile p Y.reverse).isEmpty = false := by
    cases hce : List.dropWhile p Y.reverse with
    | nil =>
      exfalso
      apply h
      rw [List.rdropWhile, hce]
      rfl
    | cons a as => rfl
  rw [h2]
  simp only [Bool.false_eq_true, if_false, List.reverse_append,
    List.reverse_reverse, List.rdropWhile]

theorem newDesc_has_newline (cur gen : List Char) :
    '\n' ∈ reviewNewDesc cur gen := by
  have hTne : List.rdropWhile isPySpace
      (marker ++ ( "\n\n".data ++ gen)) ≠ [] := by
    rw [Ne, List.rdropWhile_eq_nil_iff]
    intro hall
    have hA : ('A' : Char) ∈ marker ++ ( "\n\n".data ++ gen) :=
      List.mem_append_left _ (by decide)
    exact absurd (hall 'A' hA) (by decide)
  simp only [reviewNewDesc, stripWS, rstripWS, lstripWS]
  rw [show cur ++ "\n\n---\n".data ++ marker ++ "\n\n".data ++ gen =
      cur ++ ( "\n\n---\n".data ++ (marker ++ ( "\n\n".data ++ gen))) from by
    simp [List.append_assoc]]
  rw [List.dropWhile_append]
  by_cases hc : (List.dropWhile isPySpace cur).isEmpty = true
  · rw [if_pos hc, List.dropWhile_append]
    rw [show (List.dropWhile isPySpace ( "\n\n---\n".data)).isEmpty = false from by decide]
    simp only [Bool.false_eq_true, if_false]
    rw [show List.dropWhile isPySpace ( "\n\n---\n".data) = "---\n".data from by decide]
    rw [rdropWhile_append_of_ne isPySpace _ _ hTne]
    exact List.mem_append_left _ (by decide)
  · rw [if_neg hc]
    rw [show List.dropWhile isPySpace cur ++
        ( "\n\n---\n".data ++ (marker ++ ( "\n\n".data ++ gen))) =
        (List.dropWhile isPySpace cur ++ "\n\n---\n".data) ++
          (marker ++ ( "\n\n".data ++ gen)) from by
      rw [List.append_assoc]]
    rw [rdropWhile_append_of_ne isPySpace _ _ hTne]
    exact List.mem_append_left _ (List.mem_append_right _ (by decide))

/-- C2 (amended): the dry-run previews of the create-PR and review-comment
operations are built from exactly the URL and payload the real calls send,
and the description-update preview shares the real URL; its payload, however,
is a fixed placeholder text that differs from the real computed payload for
every input. -/
theorem dry_run_matches_real
    (org project repo pr src tgt title desc result cur gen : List Char) :
    dry_create_url org project repo = create_pr_url org project repo ∧
    dry_create_payload src tgt title desc = create_pr_payload src tgt title desc ∧
    dry_comment_url org project repo pr = post_pr_comment_url org project repo pr ∧
    dry_comment_payload result = post_pr_comment_payload (commentHeader ++ result) ∧
    dry_update_url org project repo pr = update_pr_description_url org project repo pr ∧
    update_pr_description_payload (reviewNewDesc cur gen) ≠ dry_update_payload := by
  refine ⟨rfl, rfl, rfl, rfl, rfl, ?_⟩
  intro h
  have hmem : '\n' ∈ dry_update_payload.description := by
    rw [← congrArg PatchPayload.description h]
    exact newDesc_has_newline cur gen
  exact absurd hmem (by decide)

/-- C2 counterexample: at a concrete existing description and generated text,
the payload printed by the dry-run description-update preview differs from
the payload the real flow would PATCH. -/
theorem dry_update_payload_differs :
    update_pr_description_payload (reviewNewDesc ( "old".data) ( "new".data)) ≠
      dry_update_payload := by
  decide

/-- C1: in the non-dry-run review flow with `--update-description` on, when
the PR description read from the service already contains the sentinel
marker, the flow performs zero outbound PATCH (description-update) calls,
prints the skip message, and exits 0. -/
theorem review_marker_skip (args : ReviewArgs) (w : ReviewWorld) (r d : List Char)
    (hupd : args.update_description = true)
    (hdry : args.dry_run = false)
    (hdiff : ¬ stripWS (collect_diff args.source_branch args.target_branch
        w.git_names w.git_diff).2.1 = [])
    (hai : w.ai_review_res = Except.ok (some r))
    (hr : ¬ r = [])
    (hpr : ¬ (if args.pr_id = [] then w.system_pr_id else args.pr_id) = [])
    (hctx : adoContext args.org_url args.project args.repo_id args.token = true)
    (hget : w.get_pr_desc = Except.ok (some d))
    (hmark : containsSub marker d = true) :
    (handle_review args w).1 = RunResult.exits 0 ∧
    countPatchCalls (handle_review args w).2.1 = 0 ∧
    OutItem.msg msgSkipUpdate ∈ (handle_review args w).2.2 := by
  refine ⟨?_, ?_, ?_⟩ <;>
    simp [handle_review, hai, hget, hdiff, hr, hdry, hupd, hpr, hctx, hmark,
      countPatchCalls, isPatchCall, List.filter]

/-- Witness for C1: a concrete marker-bearing PR description makes the flow
skip the PATCH and exit 0. -/
theorem review_marker_skip_witness :
    (c1args.update_description = true ∧ c1args.dry_run = false ∧
      ¬ stripWS (collect_diff c1args.source_branch c1args.target_branch
          c1world.git_names c1world.git_diff).2.1 = [] ∧
      c1world.ai_review_res = Except.ok (some ( "review text".data)) ∧
      ¬ ( "review text".data : List Char) = [] ∧
      ¬ (if c1args.pr_id = [] then c1world.system_pr_id else c1args.pr_id) = [] ∧
      adoContext c1args.org_url c1args.project c1args.repo_id c1args.token = true ∧
      c1world.get_pr_desc = Except.ok (some c1desc) ∧
      containsSub marker c1desc = true) ∧
    ((handle_review c1args c1world).1 = RunResult.exits 0 ∧
      countPatchCalls (handle_review c1args c1world).2.1 = 0 ∧
      OutItem.msg msgSkipUpdate ∈ (handle_review c1args c1world).2.2) :=
  ⟨⟨rfl, rfl, by decide, rfl, by decide, by decide, by decide, rfl, by decide⟩,
    review_marker_skip c1args c1world ( "review text".data) c1desc rfl rfl
      (by decide) rfl (by decide) (by decide) (by decide) rfl (by decide)⟩

/-- C7 (amended): with an empty diff, neither flow makes an AI call; the
review flow prints the no-diff message and exits 0; the create flow uses the
fixed fallback description and exits 0 in dry-run mode or on a successful
real creation, but exits 1 when the service context is missing outside
dry-run mode. -/
theorem no_diff_short_circuit (ra : ReviewArgs) (wr : ReviewWorld)
    (ca : CreateArgs) (wc : CreateWorld)
    (hrd : stripWS (collect_diff ra.source_branch ra.target_branch
        wr.git_names wr.git_diff).2.1 = [])
    (hcd : stripWS (collect_diff ca.source_branch ca.target_branch
        wc.git_names wc.git_diff).2.1 = [])
    (hpush : ca.push = false) :
    handle_review ra wr = (RunResult.exits 0, [], [OutItem.msg msgNoDiffReview]) ∧
    countAiCalls (handle_create ca wc).2.1 = 0 ∧
    (ca.dry_run = true →
      (handle_create ca wc).1 = RunResult.exits 0 ∧
      OutItem.createPreview (dry_create_url ca.org_url ca.project (effRepoId ca wc))
          (dry_create_payload ca.source_branch ca.target_branch (createTitle ca)
            fallbackNoDiff) ∈ (handle_create ca wc).2.2) ∧
    (ca.dry_run = false →
      adoContext ca.org_url ca.project (effRepoId ca wc) ca.token = false →
      (handle_create ca wc).1 = RunResult.exits 1) ∧
    (ca.dry_run = false →
      adoContext ca.org_url ca.project (effRepoId ca wc) ca.token = true →
      ∀ pr, wc.create_res = Except.ok pr →
        (handle_create ca wc).1 = RunResult.exits 0 ∧
        Call.createPr (create_pr_url ca.org_url ca.project (effRepoId ca wc))
            (create_pr_payload ca.source_branch ca.target_branch (createTitle ca)
              fallbackNoDiff) ∈ (handle_create ca wc).2.1) := by
  have hmain : handle_create ca wc =
      handle_create_finish ca (effRepoId ca wc) fallbackNoDiff []
        [OutItem.msg msgNoDiffCreate] wc := by
    simp [handle_create, hpush, handle_create_main, hcd]
  refine ⟨?_, ?_, ?_, ?_, ?_⟩
  · simp [handle_review, hrd]
  · rw [hmain]
    simp only [handle_create_finish]
    split
    · simp [countAiCalls, isAiCall]
    · split
      · simp [countAiCalls, isAiCall]
      · split
        · simp [countAiCalls, isAiCall, List.filter]
        · simp [countAiCalls, isAiCall, List.filter]
  · intro hdry
    rw [hmain]
    simp only [handle_create_finish]
    rw [if_pos hdry]
    exact ⟨rfl, by simp⟩
  · intro hdry hctx
    rw [hmain]
    simp only [handle_create_finish]
    rw [if_neg (by simp [hdry]), if_pos hctx]
  · intro hdry hctx pr hcr
    rw [hmain]
    simp only [handle_create_finish]
    rw [if_neg (by simp [hdry]), if_neg (by simp [hctx]), hcr]
    exact ⟨rfl, by simp⟩

/-- C7 counterexample: create flow, empty diff, missing service context,
dry-run off: the flow uses the fallback description and makes no AI call, but
exits 1, not 0. -/
theorem create_no_diff_exits_one :
    (handle_create c7args c7world).1 = RunResult.exits 1 ∧
    countAiCalls (handle_create c7args c7world).2.1 = 0 ∧
    OutItem.msg fallbackNoDiff ∈ (handle_create c7args c7world).2.2 := by
  decide

/-- Witness for the amended C7 (review side plus dry-run create side). -/
theorem no_diff_short_circuit_witness :
    (stripWS (collect_diff c7rargs.source_branch c7rargs.target_branch
        c7rworld.git_names c7rworld.git_diff).2.1 = [] ∧
      stripWS (collect_diff c7argsDry.source_branch c7argsDry.target_branch
        c7world.git_names c7world.git_diff).2.1 = [] ∧
      c7argsDry.push = false) ∧
    (handle_review c7rargs c7rworld =
        (RunResult.exits 0, [], [OutItem.msg msgNoDiffReview]) ∧
      countAiCalls (handle_create c7argsDry c7world).2.1 = 0 ∧
      (c7argsDry.dry_run = true →
        (handle_create c7argsDry c7world).1 = RunResult.exits 0 ∧
        OutItem.createPreview
            (dry_create_url c7argsDry.org_url c7argsDry.project
              (effRepoId c7argsDry c7world))
            (dry_create_payload c7argsDry.source_branch c7argsDry.target_branch
              (createTitle c7argsDry) fallbackNoDiff) ∈
          (handle_create c7argsDry c7world).2.2) ∧
      (c7argsDry.dry_run = false →
        adoContext c7argsDry.org_url c7argsDry.project
          (effRepoId c7argsDry c7world) c7argsDry.token = false →
        (handle_create c7argsDry c7world).1 = RunResult.exits 1) ∧
      (c7argsDry.dry_run = false →
        adoContext c7argsDry.org_url c7argsDry.project
          (effRepoId c7argsDry c7world) c7argsDry.token = true →
        ∀ pr, c7world.create_res = Except.ok pr →
          (handle_create c7argsDry c7world).1 = RunResult.exits 0 ∧
          Call.createPr
              (create_pr_url c7argsDry.org_url c7argsDry.project
                (effRepoId c7argsDry c7world))
              (create_pr_payload c7argsDry.source_branch c7argsDry.target_branch
                (createTitle c7argsDry) fallbackNoDiff) ∈
            (handle_create c7argsDry c7world).2.1)) :=
  ⟨⟨by decide, by decide, rfl⟩,
    no_diff_short_circuit c7rargs c7rworld c7argsDry c7world (by decide)
      (by decide) rfl⟩
